import Mathlib

set_option autoImplicit false

namespace XlsxToJson

/-!
Shallow embedding of `src/nodes/XlsxToJson/XlsxToJson.node.ts`
(n8n-xls-to-json).  JavaScript values produced by `JSON.parse` and the
service responses are modeled by `JVal`; JavaScript `undefined` is modeled
as `Option.none` at the places where property access can miss.  Numbers
are modeled as `Int` (every number appearing in the claims is integral).
-/
/-- JSON-like runtime values (results of `JSON.parse` / axios response bodies). -/
inductive JVal where
  | str (s : String)
  | num (n : Int)
  | boolean (b : Bool)
  | null
  | arr (elems : List JVal)
  | obj (props : List (String × JVal))
  deriving Repr

/-- JavaScript truthiness of a `JVal` (`undefined`, modeled as `none`, is
falsy at every use site). -/
def jsTruthy : JVal → Bool
  | .str s => s != ""
  | .num n => n != 0
  | .boolean b => b
  | .null => false
  | .arr _ => true
  | .obj _ => true

/-- JavaScript property access `v[k]`; `none` models `undefined`.
For objects built by `JSON.parse`, a duplicate key keeps its last
occurrence, hence the reversed lookup. -/
def getProp : JVal → String → Option JVal
  | .obj props, k => props.reverse.lookup k
  | _, _ => none

mutual

/-- JavaScript `ToString` coercion of a `JVal` (used by `parseInt(x, 10)`
on non-string arguments). -/
def jsToString : JVal → String
  | .str s => s
  | .num n => toString n
  | .boolean b => cond b "true" "false"
  | .null => "null"
  | .obj _ => "[object Object]"
  | .arr xs => String.intercalate "," (jsElemStrings xs)

/-- JS `Array.prototype.toString` renders `null` elements as the empty string. -/
def jsElemStrings : List JVal → List String
  | [] => []
  | .null :: xs => "" :: jsElemStrings xs
  | x :: xs => jsToString x :: jsElemStrings xs

end

/-- JavaScript `parseInt(s, 10)`: skip leading whitespace, read an optional
sign and then the longest run of decimal digits; `none` models `NaN`. -/
def parseIntJs (s : String) : Option Int :=
  let cs := s.toList.dropWhile (fun c => c == ' ' || c == '\t' || c == '\n' || c == '\r')
  let signAndRest : Int × List Char :=
    match cs with
    | '-' :: rest => (-1, rest)
    | '+' :: rest => (1, rest)
    | _ => (1, cs)
  let digits := signAndRest.2.takeWhile Char.isDigit
  if digits.isEmpty then none
  else some (signAndRest.1 *
    (digits.foldl (fun acc c => acc * 10 + (c.toNat - '0'.toNat)) 0 : Nat))

/-! ## Model of the WHATWG URL parser (Node's `new URL`)

Only the inputs reachable from `isValidUrl` are modeled: strings that
begin with `http://` or `https://` (every string `isValidUrl` hands to
`new URL` has one of these two literal prefixes).  The model keeps the
parts the code inspects (`protocol`) plus host and port, whose
validation decides parse success.  Approximations, none of which affect
the inputs appearing in the claims: IDNA/percent-decoding of domains is
not applied (a raw forbidden code point simply fails), trailing-dot IPv4
re-parsing is not applied, and bracketed IPv6 hosts are checked only for
hex/colon/dot content. -/
/-- The parts of a parsed URL that the code under verification inspects. -/
structure UrlParts where
  scheme : String
  host : String
  port : Option Nat
  deriving Repr, DecidableEq

/-- The test `charsLead p s` models `s.startsWith(p)` on character lists
(structural, so it evaluates inside the kernel). -/
def charsLead : List Char → List Char → Bool
  | [], _ => true
  | _ :: _, [] => false
  | p :: ps, c :: cs => p == c && charsLead ps cs

/-- JS `String.prototype.startsWith`, on the underlying character lists. -/
def strStartsWith (s p : String) : Bool :=
  charsLead p.data s.data

/-- Code points terminating the authority section of a special URL. -/
def isAuthorityEnd (c : Char) : Bool :=
  c == '/' || c == '\\' || c == '?' || c == '#'

/-- Forbidden domain code points of the WHATWG URL Standard
(C0 controls, space, DEL, and the listed punctuation). -/
def forbiddenHostChar (c : Char) : Bool :=
  c.toNat ≤ 0x1f || c.toNat == 0x7f ||
  c == ' ' || c == '#' || c == '%' || c == '/' || c == ':' ||
  c == '<' || c == '>' || c == '?' || c == '@' || c == '[' ||
  c == '\\' || c == ']' || c == '^' || c == '|'

/-- A non-bracketed host is valid when nonempty and free of forbidden
code points. -/
def validPlainHost (h : List Char) : Bool :=
  !h.isEmpty && h.all (fun c => !forbiddenHostChar c)

/-- Characters allowed inside a bracketed (IPv6-style) host in this model. -/
def ipv6Char (c : Char) : Bool :=
  c.isDigit || c == ':' || c == '.' ||
  ('a' ≤ c && c ≤ 'f') || ('A' ≤ c && c ≤ 'F')

/-- Digits of a port, as a number. -/
def portValue (ds : List Char) : Nat :=
  ds.foldl (fun acc c => acc * 10 + (c.toNat - '0'.toNat)) 0

/-- An (empty-allowed) port string: all digits and at most 65535. -/
def validPort (p : List Char) : Option (Option Nat) :=
  if p.isEmpty then some none
  else if p.all Char.isDigit && portValue p ≤ 65535 then some (some (portValue p))
  else none

/-- Split `host[:port]`, validating both; bracketed hosts keep their
brackets, as WHATWG hosts do. -/
def parseHostPort (hp : List Char) : Option (String × Option Nat) :=
  match hp with
  | '[' :: inner =>
    let body := inner.takeWhile (fun c => c != ']')
    let rest := inner.dropWhile (fun c => c != ']')
    match rest with
    | ']' :: tail =>
      if body.isEmpty || !body.all ipv6Char then none
      else
        match tail with
        | [] => some (('[' :: body ++ [']']).asString, none)
        | ':' :: p => (validPort p).map (fun port => (('[' :: body ++ [']']).asString, port))
        | _ => none
    | _ => none
  | _ =>
    let host := hp.takeWhile (fun c => c != ':')
    let after := hp.dropWhile (fun c => c != ':')
    if validPlainHost host then
      match after with
      | [] => some (host.asString, none)
      | _ :: p => (validPort p).map (fun port => (host.asString, port))
    else none

/-- Parse what follows `scheme://`: skip extra slashes, take the
authority up to a terminator, drop userinfo (everything before the last
`@`), then validate host and port. -/
def parseAfterScheme (scheme : String) (rest : List Char) : Option UrlParts :=
  let cs := rest.dropWhile (fun c => c == '/' || c == '\\')
  let auth := cs.takeWhile (fun c => !isAuthorityEnd c)
  let hostport := (auth.reverse.takeWhile (fun c => c != '@')).reverse
  (parseHostPort hostport).map (fun hp => ⟨scheme, hp.1, hp.2⟩)

/-- Model of `new URL(s)` restricted to `http`/`https` inputs (the only
strings `isValidUrl` ever passes to it); `none` models a thrown
`TypeError`. -/
def parseUrl (s : String) : Option UrlParts :=
  if strStartsWith s "http://" then parseAfterScheme "http" (s.data.drop 7)
  else if strStartsWith s "https://" then parseAfterScheme "https" (s.data.drop 8)
  else none

/-- The prefixing step of `isValidUrl` (lines 67-70): prepend `http://`
unless the string literally starts with `http://` or `https://`. -/
def addHttpScheme (urlString : String) : String :=
  if !strStartsWith urlString "http://" && !strStartsWith urlString "https://" then
    "http://" ++ urlString
  else urlString

/-- Translated from `isValidUrl` (XlsxToJson.node.ts lines 62-77). -/
def isValidUrl (urlString : String) : Bool :=
  if urlString = "" then false
  else
    match parseUrl (addHttpScheme urlString) with
    | some parts => parts.scheme == "http" || parts.scheme == "https"
    | none => false

/-! ## Field mapper -/
/-- A user-supplied rename `{index, name}` (`CustomFieldOverride`). -/
structure FieldOverride where
  index : Int
  name : String
  deriving Repr, DecidableEq

/-- The `Map<number, string>` built from `customMappings` (lines 424-427):
`Map.set` lets a later entry with the same index overwrite an earlier one,
so lookup takes the last occurrence. -/
def customMapGet (ms : List FieldOverride) (i : Int) : Option String :=
  ((ms.map (fun m => (m.index, m.name))).reverse).lookup i

/-- JS object property assignment `o[k] = v`: overwrite the entry in
place when the key exists, else append.  (JS enumerates integer-like
keys in numeric order; no claim depends on enumeration order, so an
insertion-ordered association list suffices.) -/
def jsSet (props : List (String × JVal)) (k : String) (v : JVal) : List (String × JVal) :=
  if props.any (fun p => p.1 == k) then
    props.map (fun p => if p.1 == k then (k, v) else p)
  else props ++ [(k, v)]

/-- The value stored under `index.toString()` (lines 433-439 and 448-456):
`customMappingsMap.has(index) ? (customMappingsMap.get(index) || field) :
field`.  An empty custom name is falsy, so `||` falls back to the
original field. -/
def mappedValue (ms : List FieldOverride) (i : Int) (field : JVal) : JVal :=
  match customMapGet ms i with
  | some nm => if nm = "" then field else JVal.str nm
  | none => field

/-- Result record of `createFieldMappings`. -/
structure FieldMappings where
  mapping : List (String × JVal)
  exportFieldIndexes : List Int
  deriving Repr

/-- Translated from `createFieldMappings` (lines 415-460).  Fields can be
strings or objects, hence `JVal`; indices are JS numbers, modeled `Int`. -/
def createFieldMappings (originalFields : List JVal) (exportIndices : List Int)
    (customMappings : List FieldOverride) : FieldMappings :=
  if exportIndices.isEmpty then
    { mapping := originalFields.enum.foldl
        (fun m p => jsSet m (toString (Int.ofNat p.1))
          (mappedValue customMappings (Int.ofNat p.1) p.2)) [],
      exportFieldIndexes := (List.range originalFields.length).map Int.ofNat }
  else
    let exportFieldIndexes := exportIndices.filter
      (fun i => decide (0 ≤ i) && decide (i < (originalFields.length : Int)))
    { mapping := exportFieldIndexes.foldl
        (fun m i => jsSet m (toString i)
          (mappedValue customMappings i (originalFields.getD i.toNat JVal.null))) [],
      exportFieldIndexes := exportFieldIndexes }

/-! ## Parameter-string parsers -/
/-- JS `String.prototype.split(sep)` on character lists. -/
def splitOnChar (sep : Char) : List Char → List (List Char)
  | [] => [[]]
  | c :: cs =>
    if c == sep then [] :: splitOnChar sep cs
    else
      match splitOnChar sep cs with
      | [] => [[c]]
      | g :: gs => (c :: g) :: gs

/-- ASCII whitespace removed by `String.prototype.trim` / skipped by
`parseInt` (Unicode space categories are not modeled; no claim uses them). -/
def isJsWhitespace (c : Char) : Bool :=
  c == ' ' || c == '\t' || c == '\n' || c == '\r' || c == '\x0b' || c == '\x0c'

/-- JS `String.prototype.trim` on character lists. -/
def trimChars (cs : List Char) : List Char :=
  ((cs.dropWhile isJsWhitespace).reverse.dropWhile isJsWhitespace).reverse

/-- Translated from `parseExportFields` (lines 41-57): split on commas,
trim, drop empties, `parseInt` with `NaN ↦ -1`, keep the nonnegative. -/
def parseExportFields (exportFieldsRaw : String) : List Int :=
  if exportFieldsRaw = "" then []
  else
    ((((splitOnChar ',' exportFieldsRaw.data).map trimChars).filter
        (fun cs => !cs.isEmpty)).map
      (fun cs => (parseIntJs cs.asString).getD (-1))).filter
      (fun i => decide (0 ≤ i))

/-- JS `ToString` of a possibly-`undefined` value (as `parseInt` receives it). -/
def jsToStringOpt : Option JVal → String
  | some v => jsToString v
  | none => "undefined"

/-- The test `item && typeof item === 'object'` (lines 593-596): `JSON.parse`
values of type `object` are objects, arrays, and `null`; `null` is falsy. -/
def isObjectLike : JVal → Bool
  | .obj _ => true
  | .arr _ => true
  | _ => false

/-- The index test of the filter (lines 598-602): keep the item when
`item.index` is a number, or `parseInt(item.index, 10)` is not `NaN`. -/
def mappingIndexOk (item : JVal) : Bool :=
  match getProp item "index" with
  | some (.num _) => true
  | x => (parseIntJs (jsToStringOpt x)).isSome

/-- The name test of the filter (lines 604-608): keep the item when
`item.name` is a truthy string. -/
def mappingNameOk (item : JVal) : Bool :=
  match getProp item "name" with
  | some (.str s) => s != ""
  | _ => false

/-- The whole filter predicate of `parseFieldMapping` (lines 590-611). -/
def validMappingItem (item : JVal) : Bool :=
  isObjectLike item && mappingIndexOk item && mappingNameOk item

/-- The map step of `parseFieldMapping` (lines 612-615).  The fallback
values (`0`, `""`) are unreachable for items that passed the filter. -/
def toOverride (item : JVal) : FieldOverride :=
  { index :=
      match getProp item "index" with
      | some (.num n) => n
      | x => (parseIntJs (jsToStringOpt x)).getD 0,
    name :=
      match getProp item "name" with
      | some (.str s) => s
      | _ => "" }

/-- Translated from `parseFieldMapping` (lines 574-620).  `JSON.parse` is
platform code, taken as the parameter `jsonParse`; `none` models a thrown
parse error (caught on lines 616-619). -/
def parseFieldMapping (jsonParse : String → Option JVal)
    (fieldMappingRaw : String) : List FieldOverride :=
  if fieldMappingRaw = "" then []
  else
    match jsonParse fieldMappingRaw with
    | none => []
    | some parsed =>
      match parsed with
      | .arr items => (items.filter validMappingItem).map toOverride
      | _ => []

/-- C10's wording, as a predicate: keep exactly the items that are
objects with a numeric (or number-parseable) `index` and a non-empty
string `name`. -/
def claimKeepsItem (item : JVal) : Bool :=
  match item with
  | .obj _ =>
    (match getProp item "index" with
     | some (.num _) => true
     | x => (parseIntJs (jsToStringOpt x)).isSome) &&
    (match getProp item "name" with
     | some (.str s) => s != ""
     | _ => false)
  | _ => false

/-! ## Retry wrapper -/
/-- The failures the code can observe and re-throw: n8n operation errors,
plain JS `Error`s, axios transport errors, and axios HTTP-status errors. -/
inductive Failure where
  | opErr (msg : String)
  | jsErr (msg : String)
  | netErr (code : String)
  | httpErr (status : Nat) (statusText : String) (body : String)
  deriving Repr, DecidableEq

/-- Outcome of `withRetry`: the returned value or re-thrown failure, the
1-based attempt numbers on which `operation` actually ran, and the
backoff delays awaited (in milliseconds, in order). -/
structure RetryResult (α : Type) where
  result : Except Failure α
  attempts : List Nat
  waits : List ℚ
  deriving Repr

/-- The loop of `withRetry` (lines 126-143) with `k` iterations left out
of `retries`; `lastError` mirrors the variable of the same name. -/
def withRetryGo {α : Type} (op : Nat → Except Failure α) (retries : Nat)
    (delay : ℚ) (opName : String) : Nat → Option Failure → RetryResult α
  | 0, lastError =>
    { result := .error (match lastError with
        | some e => e
        | none => .jsErr ("All " ++ toString retries ++ " retry attempts for "
            ++ opName ++ " failed")),
      attempts := [], waits := [] }
  | Nat.succ k, _ =>
    let attempt := retries - k
    match op attempt with
    | .ok v => { result := .ok v, attempts := [attempt], waits := [] }
    | .error e =>
      let rest := withRetryGo op retries delay opName k (some e)
      { result := rest.result,
        attempts := attempt :: rest.attempts,
        waits := if attempt < retries
          then (delay * (3 / 2 : ℚ) ^ (attempt - 1)) :: rest.waits
          else rest.waits }

/-- Translated from `withRetry` (lines 118-147): run `operation` up to
`retries` times, waiting `delay * 1.5^(attempt-1)` after every failure
except the last, then re-throw the last failure.  The operation is
modeled as a function from the attempt number to that attempt's outcome. -/
def withRetry {α : Type} (op : Nat → Except Failure α) (retries : Nat)
    (delay : ℚ) (opName : String) : RetryResult α :=
  withRetryGo op retries delay opName retries none

/-! ## The list-fields request URL -/
/-- The step `apiEndpoint.replace(/\/+$/, '')`: strip trailing slashes. -/
def stripTrailingSlashes (s : String) : String :=
  ((s.data.reverse.dropWhile (fun c => c == '/')).reverse).asString

/-- The URL built by `getFields` (line 349):
`{base}/documents/{id}/fields?headers_index={headersIndex}&sheetIndex={sheetIndex}`. -/
def getFieldsUrl (apiEndpoint documentId : String)
    (sheetIndex headersIndex : Int) : String :=
  stripTrailingSlashes apiEndpoint ++ "/documents/" ++ documentId ++
    "/fields?headers_index=" ++ toString headersIndex ++
    "&sheetIndex=" ++ toString sheetIndex

/-- The parameter names carried by a URL's query string: the piece after
the first `?`, split on `&`, each up to its `=`. -/
def queryParamNames (url : String) : List String :=
  match url.data.dropWhile (fun c => c != '?') with
  | [] => []
  | _ :: query =>
    (splitOnChar '&' query).map
      (fun piece => (piece.takeWhile (fun c => c != '=')).asString)

/-! ## Workflow orchestrator (`XlsxToJson.execute`, lines 762-1011)

Each remote HTTP request is modeled as a per-attempt oracle in `Env`;
`execute` is deterministic given `Env`.  Alongside the result, the model
returns the trace of remote calls actually issued, as
`(operation label, attempt number)` events, so that claims about which
operations run (and how often) can be stated. -/
/-- The download response: the optional `content-length` header (already
parsed to the byte count it carries) and the body length. -/
structure FileResponse where
  contentLength : Option Nat
  dataLength : Nat
  deriving Repr, DecidableEq

/-- The remote world `execute` talks to, as per-attempt request outcomes,
plus `JSON.parse` (platform code) for the field-mapping parameter. -/
structure Env where
  download : Nat → Except Failure FileResponse
  upload : Nat → Except Failure JVal
  sheets : Nat → Except Failure JVal
  fields : Nat → Except Failure JVal
  setParams : Nat → Except Failure JVal
  exported : Nat → Except Failure JVal
  jsonParse : String → Option JVal

/-- The node parameters `execute` reads (lines 770-786).  The auth
parameters and `timeout` never influence control flow or output and are
omitted; `retryAttempts` is the configured retry count. -/
structure Params where
  apiEndpoint : String
  fileUrl : String
  exportFieldsRaw : String
  fieldMappingRaw : String
  headersIndex : Int
  sheetIndex : Int
  retryAttempts : Nat
  deriving Repr

/-- A remote call event: operation label and 1-based attempt number. -/
abbrev Event := String × Nat

/-- Truthiness (`jsTruthy`) through `undefined` (`Option.none`). -/
def truthyOpt : Option JVal → Bool
  | some v => jsTruthy v
  | none => false

/-- Document-id extraction after the upload retry loop (lines 223-241):
`data.id || data.documentId`, failing when both are falsy.  (The JS code
re-words upload failures in its catch block, lines 242-276; only message
text changes there, which no claim reads, so failures pass through.) -/
def extractDocumentId (data : JVal) : Except Failure JVal :=
  if jsTruthy data = false then
    .error (.jsErr "Failed to get document ID from conversion service: No response data received")
  else if truthyOpt (getProp data "id") = false ∧
      truthyOpt (getProp data "documentId") = false then
    .error (.jsErr "Failed to get document ID from conversion service: Response missing documentId field")
  else
    .ok ((if truthyOpt (getProp data "id") then getProp data "id"
      else getProp data "documentId").getD JVal.null)

/-- Response-shape normalization of `getSheets` (lines 296-319): a bare
array, or an object with a truthy `sheets` array. -/
def normalizeSheets (data : JVal) : Except Failure (List JVal) :=
  if jsTruthy data = false then
    .error (.jsErr "Failed to get sheet names: No response data received")
  else
    match data with
    | .arr xs => .ok xs
    | _ =>
      match getProp data "sheets" with
      | some v =>
        if jsTruthy v then
          match v with
          | .arr xs => .ok xs
          | _ => .error (.jsErr "Failed to get sheet names: Unexpected response format")
        else .error (.jsErr "Failed to get sheet names: Unexpected response format")
      | none => .error (.jsErr "Failed to get sheet names: Unexpected response format")

/-- Response-shape normalization of `getFields` (lines 362-380), the
same two-shape rule with the `fields` wrapper. -/
def normalizeFields (data : JVal) : Except Failure (List JVal) :=
  if jsTruthy data = false then
    .error (.jsErr "Failed to get fields: No response data received")
  else
    match data with
    | .arr xs => .ok xs
    | _ =>
      match getProp data "fields" with
      | some v =>
        if jsTruthy v then
          match v with
          | .arr xs => .ok xs
          | _ => .error (.jsErr "Failed to get fields: Unexpected response format")
        else .error (.jsErr "Failed to get fields: Unexpected response format")
      | none => .error (.jsErr "Failed to get fields: Unexpected response format")

/-- The success check of `setParameters` (lines 519-521): the response
must be truthy with a truthy `success` field.  (The JS message embeds
`JSON.stringify(response.data)`; no claim reads it.) -/
def checkParamsSuccess (data : JVal) : Except Failure JVal :=
  if jsTruthy data = false then .error (.jsErr "Failed to set parameters")
  else if truthyOpt (getProp data "success") = false then
    .error (.jsErr "Failed to set parameters")
  else .ok data

/-- The body check of `getExportedData` (lines 553-558): any truthy body
is returned as-is. -/
def checkExportedData (data : JVal) : Except Failure JVal :=
  if jsTruthy data = false then
    .error (.jsErr "Failed to get exported data: No response data received")
  else .ok data

/-- The file size in MB (lines 852-854): `content-length` when the
header is present, else the downloaded byte count. -/
def fileSizeMB (fr : FileResponse) : ℚ :=
  match fr.contentLength with
  | some n => (n : ℚ) / (1024 * 1024)
  | none => (fr.dataLength : ℚ) / (1024 * 1024)

/-- Steps 6-7 of `execute` (lines 967-991): fetch the exported data
(retried, configured count) and emit one output item per record of an
array payload, or a single item for a non-array payload. -/
def stageExport (env : Env) (p : Params) :
    Except Failure (List JVal) × List Event :=
  let ex := withRetry (fun k => (env.exported k).bind checkExportedData)
    p.retryAttempts 2000 "get exported data"
  let exEvents := ex.attempts.map (fun k => (("get exported data", k) : Event))
  match ex.result with
  | .error e => (.error e, exEvents)
  | .ok jsonData =>
    match jsonData with
    | .arr records => (.ok records, exEvents)
    | _ => (.ok [jsonData], exEvents)

/-- Step 5 of `execute` (lines 943-965): build the field mappings and
set the conversion parameters (retried, configured count). -/
def stageParams (env : Env) (p : Params) (fields : List JVal) :
    Except Failure (List JVal) × List Event :=
  let _fieldMappings := createFieldMappings fields
    (parseExportFields p.exportFieldsRaw)
    (parseFieldMapping env.jsonParse p.fieldMappingRaw)
  let sp := withRetry (fun k => (env.setParams k).bind checkParamsSuccess)
    p.retryAttempts 2000 "set parameters"
  let spEvents := sp.attempts.map (fun k => (("set parameters", k) : Event))
  match sp.result with
  | .error e => (.error e, spEvents)
  | .ok _ =>
    let r := stageExport env p
    (r.1, spEvents ++ r.2)

/-- Step 4 of `execute` (lines 930-941): list the fields (retried,
configured count) and reject an empty field list. -/
def stageFields (env : Env) (p : Params) :
    Except Failure (List JVal) × List Event :=
  let fl := withRetry (fun k => (env.fields k).bind normalizeFields)
    p.retryAttempts 2000 "get fields"
  let flEvents := fl.attempts.map (fun k => (("get fields", k) : Event))
  match fl.result with
  | .error e => (.error e, flEvents)
  | .ok fields =>
    if fields.length = 0 then
      (.error (.opErr "No fields found in sheet"), flEvents)
    else
      let r := stageParams env p fields
      (r.1, flEvents ++ r.2)

/-- Step 3 of `execute` (lines 892-928): list the sheets (retried,
configured count), reject an empty list or an out-of-range sheet index. -/
def stageSheets (env : Env) (p : Params) :
    Except Failure (List JVal) × List Event :=
  let sh := withRetry (fun k => (env.sheets k).bind normalizeSheets)
    p.retryAttempts 2000 "get sheets"
  let shEvents := sh.attempts.map (fun k => (("get sheets", k) : Event))
  match sh.result with
  | .error e => (.error e, shEvents)
  | .ok sheets =>
    if sheets.length = 0 then
      (.error (.opErr "No sheets found in the Excel file"), shEvents)
    else if p.sheetIndex < 0 ∨ (sheets.length : Int) ≤ p.sheetIndex then
      (.error (.opErr "Invalid sheet index"), shEvents)
    else
      let r := stageFields env p
      (r.1, shEvents ++ r.2)

/-- Step 2 of `execute` (lines 869-890 with `uploadFileAndGetDocumentId`,
lines 152-277): upload the file — retried with the FIXED count 3 and
5000 ms delay hard-coded at lines 216-217 — then extract the document
id once from the final response. -/
def stageUpload (env : Env) (p : Params) :
    Except Failure (List JVal) × List Event :=
  let up := withRetry env.upload 3 5000 "file upload"
  let upEvents := up.attempts.map (fun k => (("file upload", k) : Event))
  match up.result with
  | .error e => (.error e, upEvents)
  | .ok uploadData =>
    match extractDocumentId uploadData with
    | .error e => (.error e, upEvents)
    | .ok _documentId =>
      let r := stageSheets env p
      (r.1, upEvents ++ r.2)

/-- Translated from `XlsxToJson.execute` (lines 762-1011): validate the
two URLs, download (retried, configured count), enforce the 50 MB cap,
then run the remaining stages.  The stage helpers above are the
contiguous regions of the original single function; traces concatenate
in call order. -/
def execute (env : Env) (p : Params) : Except Failure (List JVal) × List Event :=
  if p.apiEndpoint = "" then
    (.error (.opErr "XLS Service URL is required"), [])
  else
    let apiEndpoint := stripTrailingSlashes p.apiEndpoint
    if isValidUrl apiEndpoint = false then
      (.error (.opErr ("Invalid XLS Service URL: " ++ apiEndpoint)), [])
    else if isValidUrl p.fileUrl = false then
      (.error (.opErr ("Invalid File URL: " ++ p.fileUrl)), [])
    else
      let dl := withRetry env.download p.retryAttempts 5000 "file download"
      let dlEvents := dl.attempts.map (fun k => (("file download", k) : Event))
      match dl.result with
      | .error e => (.error e, dlEvents)
      | .ok fileResponse =>
        if 50 < fileSizeMB fileResponse then
          (.error (.opErr "File size exceeds 50 MB limit"), dlEvents)
        else
          let r := stageUpload env p
          (r.1, dlEvents ++ r.2)

/-- The number of trace events of one operation. -/
def countEvents (tr : List Event) (name : String) : Nat :=
  (tr.filter (fun ev => ev.1 == name)).length

/-- The environment of the spec's end-to-end example: upload response
`{id: "67cc..."}`, sheets `["Sheet1"]`, fields
`["Model","Price","Description"]`, success on set-parameters, and two
exported records. -/
def exampleEnv : Env :=
  ⟨fun _ => .ok ⟨some 1000, 1000⟩,
    fun _ => .ok (.obj [("id", .str "67cc205cf48b6439a379ea35")]),
    fun _ => .ok (.arr [.str "Sheet1"]),
    fun _ => .ok (.arr [.str "Model", .str "Price", .str "Description"]),
    fun _ => .ok (.obj [("success", .boolean true)]),
    fun _ => .ok (.arr [.obj [("Model", .str "A"), ("Price", .str "100")],
      .obj [("Model", .str "B"), ("Price", .str "200")]]),
    fun _ => none⟩

/-- The parameters of the spec's end-to-end example (export indexes 0,1). -/
def exampleParams : Params :=
  ⟨"http://localhost:3000/api", "http://example.com/f.xlsx", "0,1", "", 0, 0, 3⟩

/-- An environment whose upload request fails on every attempt, while
the download succeeds. -/
def uploadFailEnv : Env :=
  ⟨fun _ => .ok ⟨some 1000, 1000⟩,
    fun _ => .error (.httpErr 500 "Internal Server Error" "upload failed"),
    fun _ => .ok (.arr [.str "Sheet1"]),
    fun _ => .ok (.arr [.str "Model"]),
    fun _ => .ok (.obj [("success", .boolean true)]),
    fun _ => .ok (.arr []),
    fun _ => none⟩

/-- Parameters configuring 5 retry attempts. -/
def fiveRetryParams : Params :=
  ⟨"http://localhost:3000/api", "http://example.com/f.xlsx", "", "", 0, 0, 5⟩

theorem parseAfterScheme_scheme (sch : String) (rest : List Char) (parts : UrlParts)
    (h : parseAfterScheme sch rest = some parts) : parts.scheme = sch := by
  unfold parseAfterScheme at h
  rcases Option.map_eq_some'.mp h with ⟨hp, -, rfl⟩
  rfl

theorem parseUrl_scheme (s : String) (parts : UrlParts)
    (h : parseUrl s = some parts) : parts.scheme = "http" ∨ parts.scheme = "https" := by
  unfold parseUrl at h
  split at h
  · exact Or.inl (parseAfterScheme_scheme _ _ _ h)
  · split at h
    · exact Or.inr (parseAfterScheme_scheme _ _ _ h)
    · exact absurd h (by simp)

/-- C1: the claim's general rule, restated over the code's actual
prefixing condition (literal `http://` / `https://` prefixes, not
"scheme present"), together with the corrected example values. -/
theorem c1_isValidUrl_amended :
    (∀ s : String, isValidUrl s = true ↔
      s ≠ "" ∧ ∃ parts, parseUrl (addHttpScheme s) = some parts ∧
        (parts.scheme = "http" ∨ parts.scheme = "https")) ∧
    isValidUrl "http://example.com" = true ∧
    isValidUrl "https://example.com/api" = true ∧
    isValidUrl "" = false ∧
    isValidUrl "ftp://example.com" = true ∧
    isValidUrl "not-a-url" = true := by
  refine ⟨fun s => ?_, by decide, by decide, by decide, by decide, by decide⟩
  unfold isValidUrl
  by_cases hs : s = ""
  · simp [hs]
  · simp only [if_neg hs]
    cases hp : parseUrl (addHttpScheme s) with
    | none => simp [hs, hp]
    | some parts =>
      rcases parseUrl_scheme _ _ hp with h | h <;>
        simp [hs, hp, h]

/-- C1 witness: the general rule applied at a concrete input. -/
theorem c1_isValidUrl_amended_witness : isValidUrl "example.com" = true :=
  (c1_isValidUrl_amended.1 "example.com").mpr
    ⟨by decide, ⟨⟨"http", "example.com", none⟩, by decide, Or.inl rfl⟩⟩

/-- C1 counterexample: the claim asserts `isValidUrl("ftp://example.com") =
false` and `isValidUrl("not-a-url") = false`; the code returns `true` for
both (the unconditional `http://` prefix makes them parse as http URLs
with hosts `ftp` and `not-a-url`). -/
theorem c1_isValidUrl_counterexample :
    isValidUrl "ftp://example.com" = true ∧ isValidUrl "not-a-url" = true := by
  decide

/-! ### Decimal rendering is injective on the keys in use

The JS keys `index.toString()` are modeled by `toString : Int → String`
(`Nat.repr` underneath); the lookup arguments below need that rendering
to be injective on the nonnegative indexes the code selects. -/
theorem toDigitsCore_eq_digits (f : ℕ) :
    ∀ (n : ℕ) (acc : List Char), 0 < n → n ≤ f →
      Nat.toDigitsCore 10 f n acc =
        ((Nat.digits 10 n).map Nat.digitChar).reverse ++ acc := by
  induction f with
  | zero => intro n acc hn hf; omega
  | succ f ih =>
    intro n acc hn hf
    rw [Nat.toDigitsCore]
    by_cases h10 : n / 10 = 0
    · rw [if_pos h10, Nat.digits_def' (by norm_num) hn, h10, Nat.digits_zero]
      simp
    · rw [if_neg h10, ih (n / 10) _ (Nat.pos_of_ne_zero h10)
        (by have := @Nat.div_lt_self n 10 hn (by norm_num); omega)]
      rw [Nat.digits_def' (by norm_num) hn]
      simp

theorem natRepr_eq_digits (n : ℕ) (hn : 0 < n) :
    Nat.repr n = (((Nat.digits 10 n).map Nat.digitChar).reverse).asString := by
  unfold Nat.repr Nat.toDigits
  rw [toDigitsCore_eq_digits (n + 1) n [] hn (by omega)]
  simp

theorem digitChar_inj_lt10 :
    ∀ a < 10, ∀ b < 10, Nat.digitChar a = Nat.digitChar b → a = b := by decide

theorem map_digitChar_inj :
    ∀ l₁ l₂ : List ℕ, (∀ d ∈ l₁, d < 10) → (∀ d ∈ l₂, d < 10) →
      l₁.map Nat.digitChar = l₂.map Nat.digitChar → l₁ = l₂ := by
  intro l₁
  induction l₁ with
  | nil =>
    intro l₂ _ _ h
    cases l₂ with
    | nil => rfl
    | cons b t => simp at h
  | cons a t ih =>
    intro l₂ h1 h2 h
    cases l₂ with
    | nil => simp at h
    | cons b t₂ =>
      simp only [List.map_cons, List.cons.injEq] at h
      have hab : a = b :=
        digitChar_inj_lt10 a (h1 a (by simp)) b (h2 b (by simp)) h.1
      have ht : t = t₂ :=
        ih t₂ (fun d hd => h1 d (by simp [hd])) (fun d hd => h2 d (by simp [hd])) h.2
      rw [hab, ht]

theorem natRepr_injective (m n : ℕ) (h : Nat.repr m = Nat.repr n) : m = n := by
  have zero_case : ∀ k : ℕ, 0 < k → Nat.repr 0 = Nat.repr k → False := by
    intro k hk h0
    rw [natRepr_eq_digits k hk] at h0
    have hd : ['0'] = ((Nat.digits 10 k).map Nat.digitChar).reverse := by
      have := congrArg String.data h0
      simpa using this
    have hmap : (Nat.digits 10 k).map Nat.digitChar = ['0'] := by
      have := congrArg List.reverse hd
      simpa using this.symm
    have hdig : Nat.digits 10 k = [0] := by
      apply map_digitChar_inj _ [0]
        (fun d hd => Nat.digits_lt_base (by norm_num) hd) (by simp)
      simpa [Nat.digitChar] using hmap
    have := Nat.ofDigits_digits 10 k
    rw [hdig] at this
    simp [Nat.ofDigits] at this
    omega
  rcases Nat.eq_zero_or_pos m with hm | hm
  · rcases Nat.eq_zero_or_pos n with hn | hn
    · omega
    · exact absurd (hm ▸ h) (fun hh => (zero_case n hn hh).elim)
  · rcases Nat.eq_zero_or_pos n with hn | hn
    · exact absurd (hn ▸ h.symm) (fun hh => (zero_case m hm hh).elim)
    · rw [natRepr_eq_digits m hm, natRepr_eq_digits n hn] at h
      have hdata := congrArg String.data h
      simp only [List.asString] at hdata
      have hrev : (Nat.digits 10 m).map Nat.digitChar
          = (Nat.digits 10 n).map Nat.digitChar := by
        have := congrArg List.reverse hdata
        simpa using this
      have := map_digitChar_inj _ _
        (fun d hd => Nat.digits_lt_base (by norm_num) hd)
        (fun d hd => Nat.digits_lt_base (by norm_num) hd) hrev
      exact Nat.digits_inj_iff.mp this

theorem intToString_ofNat (n : ℕ) : toString (Int.ofNat n) = Nat.repr n := rfl

theorem intToString_inj_nonneg (a b : Int) (ha : 0 ≤ a) (hb : 0 ≤ b)
    (h : toString a = toString b) : a = b := by
  obtain ⟨m, rfl⟩ := Int.eq_ofNat_of_zero_le ha
  obtain ⟨n, rfl⟩ := Int.eq_ofNat_of_zero_le hb
  exact congrArg Int.ofNat (natRepr_injective m n h)

/-! ### Lookup and key-set behaviour of `jsSet` and the mapping folds -/
theorem lookup_cons_self (k : String) (v : JVal) (t : List (String × JVal)) :
    ((k, v) :: t).lookup k = some v := by
  simp [List.lookup]

theorem lookup_cons_ne (k a : String) (b : JVal) (t : List (String × JVal))
    (h : ¬ k = a) : ((a, b) :: t).lookup k = t.lookup k := by
  have hne : (k == a) = false := by simpa using h
  simp [List.lookup, hne]

theorem lookup_replaceAll (k k' : String) (v : JVal) :
    ∀ m : List (String × JVal),
      (m.map (fun p => if p.1 == k' then (k', v) else p)).lookup k =
        if k = k' then (if m.any (fun p => p.1 == k') then some v else none)
        else m.lookup k := by
  intro m
  induction m with
  | nil => by_cases hk : k = k' <;> simp [List.lookup, hk]
  | cons p t ih =>
    obtain ⟨a, b⟩ := p
    by_cases hp : a = k'
    · subst hp
      rw [List.map_cons]
      simp only [beq_self_eq_true, if_true]
      by_cases hk : k = a
      · subst hk
        rw [lookup_cons_self]
        simp [List.any_cons]
      · rw [lookup_cons_ne k a v _ hk, ih, lookup_cons_ne k a b t hk]
        simp [hk]
    · have hpb : (a == k') = false := by simpa using hp
      rw [List.map_cons]
      simp only [hpb, Bool.false_eq_true, if_false]
      by_cases hk : k = a
      · subst hk
        rw [lookup_cons_self, lookup_cons_self]
        have hkk' : ¬ k = k' := by simpa using hp
        simp [hkk']
      · rw [lookup_cons_ne k a b _ hk, ih, lookup_cons_ne k a b t hk]
        have hany : (((a, b) :: t).any fun p => p.1 == k')
            = (t.any fun p => p.1 == k') := by
          rw [List.any_cons]
          show ((a == k') || (t.any fun p => p.1 == k')) = _
          rw [hpb, Bool.false_or]
        rw [hany]

theorem lookup_append_single (k k' : String) (v : JVal) :
    ∀ m : List (String × JVal), ¬ m.any (fun p => p.1 == k') = true →
      (m ++ [(k', v)]).lookup k = if k = k' then some v else m.lookup k := by
  intro m
  induction m with
  | nil =>
    intro _
    by_cases hk : k = k'
    · subst hk
      simp only [List.nil_append, if_pos rfl]
      exact lookup_cons_self k v []
    · simp only [List.nil_append]
      rw [lookup_cons_ne k k' v [] hk]
      simp [List.lookup, hk]
  | cons p t ih =>
    intro hany
    obtain ⟨a, b⟩ := p
    have hp : ¬ a = k' := fun hh => hany (by simp [List.any_cons, hh])
    have ht : ¬ t.any (fun p => p.1 == k') = true :=
      fun hh => hany (by simp [List.any_cons, hh])
    by_cases hk : k = a
    · subst hk
      have hkk' : ¬ k = k' := hp
      rw [List.cons_append, lookup_cons_self, lookup_cons_self]
      simp [hkk']
    · rw [List.cons_append, lookup_cons_ne k a b _ hk, ih ht,
        lookup_cons_ne k a b t hk]

theorem jsSet_lookup (m : List (String × JVal)) (k k' : String) (v : JVal) :
    (jsSet m k' v).lookup k = if k = k' then some v else m.lookup k := by
  unfold jsSet
  by_cases hany : m.any (fun p => p.1 == k') = true
  · rw [if_pos hany, lookup_replaceAll, hany]
    by_cases hk : k = k' <;> simp [hk]
  · rw [if_neg hany, lookup_append_single k k' v m hany]

theorem lookup_foldl_jsSet {α : Type} (key : α → String) (val : α → JVal)
    (l : List α) (m : List (String × JVal)) (k : String) :
    ((l.foldl (fun acc a => jsSet acc (key a) (val a)) m).lookup k) =
      match l.reverse.find? (fun a => key a == k) with
      | some a => some (val a)
      | none => m.lookup k := by
  induction l generalizing m with
  | nil => simp
  | cons a t ih =>
    rw [List.foldl_cons, ih, List.reverse_cons, List.find?_append]
    cases hf : t.reverse.find? (fun a => key a == k) with
    | some b => simp [hf]
    | none =>
      simp only [hf, Option.none_or]
      by_cases hk : key a = k
      · simp [List.find?, hk, jsSet_lookup]
      · have hne : (key a == k) = false := by simpa using hk
        have hne' : ¬ k = key a := fun hh => hk hh.symm
        simp [List.find?, hne, jsSet_lookup, hne']

theorem jsSet_keys (m : List (String × JVal)) (k : String) (v : JVal) :
    ((jsSet m k v).map Prod.fst).toFinset = insert k (m.map Prod.fst).toFinset := by
  unfold jsSet
  split
  · rename_i hany
    have hmem : k ∈ (m.map Prod.fst).toFinset := by
      rcases List.any_eq_true.mp hany with ⟨p, hp, hpk⟩
      have hpk' : p.1 = k := by simpa using hpk
      exact List.mem_toFinset.mpr (List.mem_map.mpr ⟨p, hp, hpk'⟩)
    have hkeys : (m.map (fun p => if p.1 == k then (k, v) else p)).map Prod.fst
        = m.map Prod.fst := by
      rw [List.map_map]
      apply List.map_congr_left
      intro p _
      by_cases hp : p.1 = k <;> simp [hp]
    rw [hkeys, Finset.insert_eq_self.mpr hmem]
  · rw [List.map_append, List.toFinset_append]
    simp [Finset.union_comm, Finset.insert_eq]

theorem keys_foldl_jsSet {α : Type} (key : α → String) (val : α → JVal)
    (l : List α) (m : List (String × JVal)) :
    (((l.foldl (fun acc a => jsSet acc (key a) (val a)) m)).map Prod.fst).toFinset =
      (l.map key).toFinset ∪ (m.map Prod.fst).toFinset := by
  induction l generalizing m with
  | nil => simp
  | cons a t ih =>
    rw [List.foldl_cons, ih, jsSet_keys]
    simp only [List.map_cons, List.toFinset_cons]
    ext x
    simp [or_comm, or_left_comm]

/-- C4: with empty `exportIndices` all positions are selected in order;
otherwise `exportIndices` is filtered to `[0, len(originalFields))`,
preserving order and silently dropping out-of-range indexes; in
particular `createFieldMappings(["name","email"], [0,5], [])` selects
`[0]`. -/
theorem c4_createFieldMappings_selection :
    (∀ (fields : List JVal) (es : List Int) (ms : List FieldOverride),
      (createFieldMappings fields es ms).exportFieldIndexes =
        if es.isEmpty then (List.range fields.length).map Int.ofNat
        else es.filter (fun i => decide (0 ≤ i) && decide (i < (fields.length : Int)))) ∧
    (createFieldMappings [JVal.str "name", JVal.str "email"] [0, 5]
      []).exportFieldIndexes = [0] := by
  constructor
  · intro fields es ms
    unfold createFieldMappings
    by_cases h : es.isEmpty <;> simp [h]
  · decide

/-- C8: every selected index is a valid position of `originalFields`,
and the key set of `mapping` is exactly the rendered selected indexes
(all positions when `exportIndices` is empty). -/
theorem c8_createFieldMappings_invariant
    (fields : List JVal) (es : List Int) (ms : List FieldOverride) :
    (∀ i ∈ (createFieldMappings fields es ms).exportFieldIndexes,
        0 ≤ i ∧ i < (fields.length : Int)) ∧
    ((createFieldMappings fields es ms).mapping.map Prod.fst).toFinset =
      ((createFieldMappings fields es ms).exportFieldIndexes.map
        (fun i => toString i)).toFinset := by
  unfold createFieldMappings
  by_cases h : es.isEmpty
  · simp only [h, if_true]
    constructor
    · intro i hi
      simp only [List.mem_map, List.mem_range] at hi
      obtain ⟨j, hj, rfl⟩ := hi
      refine ⟨Int.ofNat_zero_le j, ?_⟩
      rw [Int.ofNat_eq_natCast]
      exact_mod_cast hj
    · have hl : fields.enum.map (fun p => toString (Int.ofNat p.1))
          = ((List.range fields.length).map Int.ofNat).map (fun i => toString i) := by
        rw [List.map_map, ← List.enum_map_fst fields, List.map_map]
        rfl
      rw [keys_foldl_jsSet, hl]
      simp
  · simp only [h, Bool.false_eq_true, if_false]
    constructor
    · intro i hi
      rw [List.mem_filter] at hi
      have := hi.2
      simp only [Bool.and_eq_true, decide_eq_true_eq] at this
      exact this
    · rw [keys_foldl_jsSet]
      simp

/-- C8 witness: the invariant at a concrete input. -/
theorem c8_createFieldMappings_invariant_witness :
    (∀ i ∈ (createFieldMappings [JVal.str "name", JVal.str "email"] [0, 5]
        []).exportFieldIndexes, 0 ≤ i ∧ i < (2 : Int)) ∧
    ((createFieldMappings [JVal.str "name", JVal.str "email"] [0, 5]
        []).mapping.map Prod.fst).toFinset =
      ((createFieldMappings [JVal.str "name", JVal.str "email"] [0, 5]
        []).exportFieldIndexes.map (fun i => toString i)).toFinset :=
  c8_createFieldMappings_invariant [JVal.str "name", JVal.str "email"] [0, 5] []

theorem mem_reverse_find?_of_mem {α : Type} (p : α → Bool) (l : List α)
    (a : α) (ha : a ∈ l) (hpa : p a = true) :
    ∃ b, l.reverse.find? p = some b ∧ p b = true ∧ b ∈ l := by
  cases hf : l.reverse.find? p with
  | none =>
    exact absurd hpa (List.find?_eq_none.mp hf a (List.mem_reverse.mpr ha))
  | some b =>
    exact ⟨b, rfl, List.find?_some hf,
      List.mem_reverse.mp (List.mem_of_find?_eq_some hf)⟩

/-- C9: a custom override carrying the empty string as name is ignored
(`mapping[str(i)]` falls back to the original field), and
`parseFieldMapping` never emits an override with an empty name. -/
theorem c9_empty_override_ignored :
    (∀ (fields : List JVal) (es : List Int) (ms : List FieldOverride) (i : Int),
      customMapGet ms i = some "" →
      i ∈ (createFieldMappings fields es ms).exportFieldIndexes →
      (createFieldMappings fields es ms).mapping.lookup (toString i)
        = some (fields.getD i.toNat JVal.null)) ∧
    (∀ (jsonParse : String → Option JVal) (raw : String)
        (ov : FieldOverride), ov ∈ parseFieldMapping jsonParse raw →
      ov.name ≠ "") := by
  constructor
  · intro fields es ms i hov hsel
    unfold createFieldMappings at hsel ⊢
    by_cases h : es.isEmpty
    · simp only [h, if_true] at hsel ⊢
      simp only [List.mem_map, List.mem_range] at hsel
      obtain ⟨j, hj, rfl⟩ := hsel
      rw [lookup_foldl_jsSet (fun p : ℕ × JVal => toString (Int.ofNat p.1))
        (fun p : ℕ × JVal => mappedValue ms (Int.ofNat p.1) p.2) fields.enum []
        (toString (Int.ofNat j))]
      have hmem : (j, fields.getD j JVal.null) ∈ fields.enum := by
        rw [List.mk_mem_enum_iff_getElem?, List.getElem?_eq_getElem hj,
          List.getD_eq_getElem fields JVal.null hj]
      obtain ⟨b, hfind, hpb, hbmem⟩ :=
        mem_reverse_find?_of_mem
          (fun p => toString (Int.ofNat p.1) == toString (Int.ofNat j))
          fields.enum (j, fields.getD j JVal.null)
          hmem (by show (toString (Int.ofNat j) == toString (Int.ofNat j)) = true
                   simp)
      rw [hfind]
      obtain ⟨bi, bv⟩ := b
      have hkey : toString (Int.ofNat bi) = toString (Int.ofNat j) := by
        simpa using hpb
      have hbij : bi = j := by
        have := intToString_inj_nonneg _ _ (Int.ofNat_zero_le bi)
          (Int.ofNat_zero_le j) hkey
        exact Int.ofNat.inj this
      subst hbij
      have hbv : bv = fields.getD bi JVal.null := by
        rw [List.mk_mem_enum_iff_getElem?] at hbmem
        have hbi : bi < fields.length := by
          by_contra hcon
          rw [List.getElem?_eq_none (Nat.le_of_not_lt hcon)] at hbmem
          exact Option.noConfusion hbmem
        rw [List.getElem?_eq_getElem hbi] at hbmem
        rw [List.getD_eq_getElem fields JVal.null hbi]
        exact (Option.some.inj hbmem).symm
      subst hbv
      rw [Int.ofNat_eq_natCast] at hov
      simp [mappedValue, hov]
    · simp only [h, Bool.false_eq_true, if_false] at hsel ⊢
      rw [lookup_foldl_jsSet (fun i : Int => toString i)
        (fun i : Int => mappedValue ms i (fields.getD i.toNat JVal.null)) _ []
        (toString i)]
      obtain ⟨b, hfind, hpb, hbmem⟩ :=
        mem_reverse_find?_of_mem (fun a => toString a == toString i) _ i hsel
          (by show (toString i == toString i) = true
              simp)
      rw [hfind]
      have hbi : b = i := by
        have hb0 : 0 ≤ b := by
          rw [List.mem_filter] at hbmem
          have := hbmem.2
          simp only [Bool.and_eq_true, decide_eq_true_eq] at this
          exact this.1
        have hi0 : 0 ≤ i := by
          rw [List.mem_filter] at hsel
          have := hsel.2
          simp only [Bool.and_eq_true, decide_eq_true_eq] at this
          exact this.1
        exact intToString_inj_nonneg b i hb0 hi0 (by simpa using hpb)
      subst hbi
      simp [mappedValue, hov]
  · intro jsonParse raw ov hov
    unfold parseFieldMapping at hov
    by_cases hraw : raw = ""
    · simp [hraw] at hov
    · rw [if_neg hraw] at hov
      cases hp : jsonParse raw with
      | none => rw [hp] at hov; simp at hov
      | some parsed =>
        rw [hp] at hov
        cases parsed with
        | arr items =>
          simp only [List.mem_map] at hov
          obtain ⟨item, hitem, rfl⟩ := hov
          rw [List.mem_filter] at hitem
          have hvalid := hitem.2
          unfold validMappingItem at hvalid
          simp only [Bool.and_eq_true] at hvalid
          have hname := hvalid.2
          unfold mappingNameOk at hname
          unfold toOverride
          cases hgp : getProp item "name" with
          | none => rw [hgp] at hname; exact absurd hname (by simp)
          | some nv =>
            rw [hgp] at hname
            cases nv with
            | str s =>
              simp only [bne_iff_ne, ne_eq] at hname
              simpa [hgp] using hname
            | num n => exact absurd hname (by simp)
            | boolean b => exact absurd hname (by simp)
            | null => exact absurd hname (by simp)
            | arr xs => exact absurd hname (by simp)
            | obj props => exact absurd hname (by simp)
        | str s => simp at hov
        | num n => simp at hov
        | boolean b => simp at hov
        | null => simp at hov
        | obj props => simp at hov

/-- C9 witness: both parts applied at concrete inputs. -/
theorem c9_empty_override_ignored_witness :
    (createFieldMappings [JVal.str "name", JVal.str "email"] [0]
        [⟨0, ""⟩]).mapping.lookup (toString (0 : Int))
      = some (JVal.str "name") ∧
    (⟨0, "model"⟩ : FieldOverride).name ≠ "" := by
  constructor
  · exact c9_empty_override_ignored.1 [JVal.str "name", JVal.str "email"]
      [0] [⟨0, ""⟩] 0 rfl (by decide)
  · exact c9_empty_override_ignored.2
      (fun _ => some (JVal.arr [JVal.obj [("index", JVal.num 0),
        ("name", JVal.str "model")]])) "x" ⟨0, "model"⟩ (by decide)

theorem validMappingItem_eq_claim (item : JVal) :
    validMappingItem item = claimKeepsItem item := by
  cases item with
  | obj props =>
    simp [validMappingItem, claimKeepsItem, isObjectLike, mappingIndexOk,
      mappingNameOk, Bool.and_assoc]
  | arr elems =>
    simp [validMappingItem, claimKeepsItem, isObjectLike, mappingIndexOk,
      mappingNameOk, getProp, jsToStringOpt, parseIntJs]
  | str s => rfl
  | num n => rfl
  | boolean b => rfl
  | null => rfl

/-- C10: `parseFieldMapping` is total (no exception escapes); it returns
`[]` for the empty string, for inputs that do not parse as JSON, and for
JSON values that are not arrays, and otherwise keeps exactly the items
that are objects with a numeric (or number-parseable) index and a
non-empty string name, dropping every malformed item. -/
theorem c10_parseFieldMapping_total (jsonParse : String → Option JVal)
    (raw : String) :
    parseFieldMapping jsonParse raw =
      if raw = "" then []
      else
        match jsonParse raw with
        | none => []
        | some (JVal.arr items) => (items.filter claimKeepsItem).map toOverride
        | some _ => [] := by
  unfold parseFieldMapping
  by_cases hraw : raw = ""
  · simp [hraw]
  · rw [if_neg hraw, if_neg hraw]
    cases hp : jsonParse raw with
    | none => rfl
    | some parsed =>
      cases parsed with
      | arr items =>
        show (items.filter validMappingItem).map toOverride
            = (items.filter claimKeepsItem).map toOverride
        rw [List.filter_congr (fun item _ => validMappingItem_eq_claim item)]
      | str s => rfl
      | num n => rfl
      | boolean b => rfl
      | null => rfl
      | obj props => rfl

theorem withRetryGo_attempts_length {α : Type} (op : Nat → Except Failure α)
    (retries : Nat) (delay : ℚ) (opName : String) :
    ∀ (k : Nat) (last : Option Failure),
      (withRetryGo op retries delay opName k last).attempts.length ≤ k := by
  intro k
  induction k with
  | zero => intro last; simp [withRetryGo]
  | succ k ih =>
    intro last
    rw [withRetryGo]
    cases op (retries - k) with
    | ok v => simp
    | error e =>
      simp only [List.length_cons]
      exact Nat.succ_le_succ (ih (some e))

theorem withRetryGo_success {α : Type} (op : Nat → Except Failure α)
    (retries : Nat) (delay : ℚ) (opName : String) (v : α) (j : Nat)
    (hj : j ≤ retries) (hok : op j = .ok v) :
    ∀ (k : Nat) (last : Option Failure), k ≤ retries →
      retries - k + 1 ≤ j →
      (∀ i, retries - k + 1 ≤ i → i < j → ∃ e, op i = .error e) →
      (withRetryGo op retries delay opName k last).result = .ok v ∧
      (withRetryGo op retries delay opName k last).waits =
        (List.range' (retries - k + 1) (j - (retries - k + 1))).map
          (fun a => delay * (3 / 2 : ℚ) ^ (a - 1)) := by
  intro k
  induction k with
  | zero => intro last hk hstart hmin; omega
  | succ k ih =>
    intro last hk hstart hmin
    rw [withRetryGo]
    by_cases hjs : retries - k = j
    · rw [hjs, hok]
      constructor
      · rfl
      · have : j - (retries - (k + 1) + 1) = 0 := by omega
        rw [this]
        rfl
    · have hlt : retries - k < j := by omega
      obtain ⟨e, he⟩ := hmin (retries - k) (by omega) hlt
      rw [he]
      obtain ⟨ihr, ihw⟩ := ih (some e) (by omega) (by omega)
        (fun i h1 h2 => hmin i (by omega) h2)
      refine ⟨ihr, ?_⟩
      have hwlt : retries - k < retries := by omega
      simp only [if_pos hwlt, ihw]
      have hrange : List.range' (retries - (k + 1) + 1) (j - (retries - (k + 1) + 1))
          = (retries - k) :: List.range' (retries - k + 1) (j - (retries - k + 1)) := by
        have h1 : retries - (k + 1) + 1 = retries - k := by omega
        have h2 : j - (retries - (k + 1) + 1) = (j - (retries - k + 1)) + 1 := by omega
        rw [h2, h1, List.range'_succ]
      rw [hrange, List.map_cons]

theorem withRetryGo_all_fail {α : Type} (op : Nat → Except Failure α)
    (retries : Nat) (delay : ℚ) (opName : String)
    (hfail : ∀ i, 1 ≤ i → i ≤ retries → ∃ e, op i = .error e)
    (e : Failure) (hlast : op retries = .error e) :
    ∀ (k : Nat) (last : Option Failure), 1 ≤ k → k ≤ retries →
      (withRetryGo op retries delay opName k last).result = .error e := by
  intro k
  induction k with
  | zero => intro last h1 h2; omega
  | succ k ih =>
    intro last h1 hk
    rw [withRetryGo]
    by_cases hk0 : k = 0
    · subst hk0
      rw [Nat.sub_zero, hlast]
      simp [withRetryGo]
    · obtain ⟨e', he'⟩ := hfail (retries - k) (by omega) (by omega)
      rw [he']
      exact ih (some e') (by omega) (by omega)

/-- C3: `withRetry(op, maxAttempts, baseDelay)` runs `op` at most
`maxAttempts` times; a first success on attempt `k` is returned after
waits of `baseDelay * 1.5^(attempt-1)` following each earlier failed
attempt; if every attempt fails, the last observed failure is re-raised
unchanged. -/
theorem c3_withRetry_spec {α : Type} (op : Nat → Except Failure α)
    (maxAttempts : Nat) (baseDelay : ℚ) (opName : String)
    (hn : 1 ≤ maxAttempts) :
    (withRetry op maxAttempts baseDelay opName).attempts.length ≤ maxAttempts ∧
    (∀ (k : Nat) (v : α), 1 ≤ k → k ≤ maxAttempts → op k = .ok v →
      (∀ j, 1 ≤ j → j < k → ∃ e, op j = .error e) →
      (withRetry op maxAttempts baseDelay opName).result = .ok v ∧
      (withRetry op maxAttempts baseDelay opName).waits =
        (List.range (k - 1)).map (fun j => baseDelay * (3 / 2 : ℚ) ^ j)) ∧
    (∀ e : Failure, op maxAttempts = .error e →
      (∀ j, 1 ≤ j → j ≤ maxAttempts → ∃ e', op j = .error e') →
      (withRetry op maxAttempts baseDelay opName).result = .error e) := by
  refine ⟨withRetryGo_attempts_length op maxAttempts baseDelay opName
    maxAttempts none, ?_, ?_⟩
  · intro k v h1 hk hok hmin
    unfold withRetry
    have hstart : maxAttempts - maxAttempts + 1 = 1 := by omega
    obtain ⟨hres, hwaits⟩ := withRetryGo_success op maxAttempts baseDelay opName
      v k hk hok maxAttempts none (le_refl _) (by omega)
      (fun i hi1 hi2 => hmin i (by omega) hi2)
    refine ⟨hres, ?_⟩
    rw [hwaits, hstart]
    have : List.range' 1 (k - 1) = (List.range (k - 1)).map (fun j => 1 + j) := by
      rw [List.range'_eq_map_range]
    rw [this, List.map_map]
    apply List.map_congr_left
    intro j _
    simp only [Function.comp_apply]
    have hexp : 1 + j - 1 = j := by omega
    rw [hexp]
  · intro e hlast hfail
    exact withRetryGo_all_fail op maxAttempts baseDelay opName hfail e hlast
      maxAttempts none hn (le_refl _)

/-- C3 witness: an operation failing on attempts 1 and 2 and succeeding
on attempt 3 (maxAttempts 3, baseDelay 2000) returns the success after
waits 2000 and 3000. -/
theorem c3_withRetry_spec_witness :
    (withRetry (fun k => if k < 3 then Except.error (Failure.jsErr "boom")
        else Except.ok (42 : Nat)) 3 2000 "file upload").result
      = Except.ok 42 ∧
    (withRetry (fun k => if k < 3 then Except.error (Failure.jsErr "boom")
        else Except.ok (42 : Nat)) 3 2000 "file upload").waits
      = [2000, 3000] := by
  have h := (c3_withRetry_spec (fun k => if k < 3 then
      Except.error (Failure.jsErr "boom") else Except.ok (42 : Nat))
      3 2000 "file upload" (by norm_num)).2.1 3 42 (by norm_num)
      (le_refl _) rfl
      (fun j h1 h2 => ⟨Failure.jsErr "boom", by interval_cases j <;> rfl⟩)
  refine ⟨h.1, ?_⟩
  rw [h.2]
  show List.map _ (List.range 2) = _
  rw [show List.range 2 = [0, 1] from rfl]
  norm_num

theorem dropWhile_append_of_all {α : Type} (p : α → Bool) (l₁ l₂ : List α)
    (h : ∀ a ∈ l₁, p a = true) :
    List.dropWhile p (l₁ ++ l₂) = List.dropWhile p l₂ := by
  induction l₁ with
  | nil => rfl
  | cons a t ih =>
    rw [List.cons_append, List.dropWhile_cons, if_pos (h a (by simp))]
    exact ih (fun a ha => h a (by simp [ha]))

theorem takeWhile_append_of_all {α : Type} (p : α → Bool) (l₁ l₂ : List α)
    (c : α) (h : ∀ a ∈ l₁, p a = true) (hc : p c = false) :
    List.takeWhile p (l₁ ++ c :: l₂) = l₁ := by
  induction l₁ with
  | nil => simp [List.takeWhile_cons, hc]
  | cons a t ih =>
    rw [List.cons_append, List.takeWhile_cons, if_pos (h a (by simp))]
    rw [ih (fun a ha => h a (by simp [ha]))]

theorem splitOnChar_of_not_mem (sep : Char) (l : List Char) (h : sep ∉ l) :
    splitOnChar sep l = [l] := by
  induction l with
  | nil => rfl
  | cons c t ih =>
    have hc : ¬ c == sep := by
      simp only [beq_iff_eq]
      intro hh
      exact h (hh ▸ List.mem_cons_self c t)
    rw [splitOnChar, if_neg hc, ih (fun hm => h (List.mem_cons_of_mem c hm))]

theorem splitOnChar_append_sep (sep : Char) (l₁ l₂ : List Char)
    (h : sep ∉ l₁) :
    splitOnChar sep (l₁ ++ sep :: l₂) = l₁ :: splitOnChar sep l₂ := by
  induction l₁ with
  | nil =>
    rw [List.nil_append, splitOnChar, if_pos (by simp)]
  | cons c t ih =>
    have hc : ¬ c == sep := by
      simp only [beq_iff_eq]
      intro hh
      exact h (hh ▸ List.mem_cons_self c t)
    rw [List.cons_append, splitOnChar, if_neg hc,
      ih (fun hm => h (List.mem_cons_of_mem c hm))]

theorem digitChar_isDigit : ∀ d < 10, (Nat.digitChar d).isDigit = true := by
  decide

/-- Every character of `toString (i : Int)` is a digit or `-`. -/
theorem intToString_chars (i : Int) :
    ∀ c ∈ (toString i).data, c.isDigit = true ∨ c = '-' := by
  have hnat : ∀ n : ℕ, ∀ c ∈ (Nat.repr n).data, c.isDigit = true := by
    intro n c hc
    rcases Nat.eq_zero_or_pos n with hn | hn
    · subst hn
      have h0 : c ∈ ['0'] := hc
      rcases List.mem_singleton.mp h0 with rfl
      rfl
    · rw [natRepr_eq_digits n hn] at hc
      simp only [List.asString] at hc
      rw [List.mem_reverse, List.mem_map] at hc
      obtain ⟨d, hd, rfl⟩ := hc
      exact digitChar_isDigit d (Nat.digits_lt_base (by norm_num) hd)
  cases i with
  | ofNat n =>
    intro c hc
    exact Or.inl (hnat n c hc)
  | negSucc m =>
    intro c hc
    have : c ∈ ("-" ++ Nat.repr (m + 1)).data := hc
    rw [String.data_append] at this
    rcases List.mem_append.mp this with hm | hm
    · exact Or.inr (by simpa using hm)
    · exact Or.inl (hnat (m + 1) c hm)

theorem mem_stripTrailingSlashes {c : Char} {s : String}
    (h : c ∈ (stripTrailingSlashes s).data) : c ∈ s.data := by
  unfold stripTrailingSlashes at h
  simp only [List.asString] at h
  rw [List.mem_reverse] at h
  have := (List.dropWhile_sublist (fun c => c == '/')).mem h
  rwa [List.mem_reverse] at this

/-- C6 (amended): the `fields` request's query string carries the
headers row index under the name `headers_index` (not `headersIndex`)
and the sheet index under `sheetIndex`. -/
theorem c6_getFieldsUrl_amended (base docId : String) (s h : Int)
    (hb : '?' ∉ base.data) (hd : '?' ∉ docId.data) :
    queryParamNames (getFieldsUrl base docId s h)
      = ["headers_index", "sheetIndex"] := by
  unfold getFieldsUrl queryParamNames
  have hdata : (stripTrailingSlashes base ++ "/documents/" ++ docId ++
      "/fields?headers_index=" ++ toString h ++ "&sheetIndex=" ++
      toString s).data
      = ((stripTrailingSlashes base).data ++ "/documents/".data ++ docId.data
          ++ "/fields".data) ++ '?' ::
        (("headers_index".data ++ '=' :: (toString h).data) ++ '&' ::
          ("sheetIndex".data ++ '=' :: (toString s).data)) := by
    simp only [String.data_append, List.append_assoc]
    rfl
  rw [hdata]
  have hq : ∀ c ∈ ((stripTrailingSlashes base).data ++ "/documents/".data
      ++ docId.data ++ "/fields".data), (c != '?') = true := by
    intro c hc
    simp only [bne_iff_ne, ne_eq]
    intro hceq
    rw [hceq] at hc
    rcases List.mem_append.mp hc with hc | hc
    · rcases List.mem_append.mp hc with hc | hc
      · rcases List.mem_append.mp hc with hc | hc
        · exact hb (mem_stripTrailingSlashes hc)
        · exact absurd hc (by decide)
      · exact hd hc
    · exact absurd hc (by decide)
  rw [dropWhile_append_of_all _ _ _ hq]
  rw [List.dropWhile_cons, if_neg (by decide)]
  show (splitOnChar '&' (("headers_index".data ++ '=' :: (toString h).data) ++
      '&' :: ("sheetIndex".data ++ '=' :: (toString s).data))).map
    (fun piece => (piece.takeWhile (fun c => c != '=')).asString)
      = ["headers_index", "sheetIndex"]
  have hamp1 : '&' ∉ ("headers_index".data ++ '=' :: (toString h).data) := by
    intro hm
    rcases List.mem_append.mp hm with hm | hm
    · exact absurd hm (by decide)
    · rcases List.mem_cons.mp hm with hm | hm
      · exact absurd hm (by decide)
      · rcases intToString_chars h '&' hm with hdig | hdash
        · exact absurd hdig (by decide)
        · exact absurd hdash (by decide)
  rw [splitOnChar_append_sep '&' _ _ hamp1]
  have hamp2 : '&' ∉ ("sheetIndex".data ++ '=' :: (toString s).data) := by
    intro hm
    rcases List.mem_append.mp hm with hm | hm
    · exact absurd hm (by decide)
    · rcases List.mem_cons.mp hm with hm | hm
      · exact absurd hm (by decide)
      · rcases intToString_chars s '&' hm with hdig | hdash
        · exact absurd hdig (by decide)
        · exact absurd hdash (by decide)
  rw [splitOnChar_of_not_mem '&' _ hamp2]
  rw [List.map_cons, List.map_cons, List.map_nil]
  rw [takeWhile_append_of_all _ "headers_index".data _ '=' (by decide) (by decide)]
  rw [takeWhile_append_of_all _ "sheetIndex".data _ '=' (by decide) (by decide)]
  rfl

/-- C6 amended witness: concrete inputs. -/
theorem c6_getFieldsUrl_amended_witness :
    queryParamNames (getFieldsUrl "http://localhost:3000/api" "doc1" 0 0)
      = ["headers_index", "sheetIndex"] :=
  c6_getFieldsUrl_amended "http://localhost:3000/api" "doc1" 0 0
    (by decide) (by decide)

/-- C6 counterexample: the claim says the headers row index travels
under the query-parameter name `headersIndex`; the code sends it as
`headers_index`. -/
theorem c6_getFieldsUrl_counterexample :
    queryParamNames (getFieldsUrl "http://localhost:3000/api" "doc1" 0 0)
      = ["headers_index", "sheetIndex"] ∧
    "headersIndex" ∉
      queryParamNames (getFieldsUrl "http://localhost:3000/api" "doc1" 0 0) := by
  decide

/-! ### Retry facts used by the orchestrator proofs -/
theorem withRetry_first_ok {α : Type} (op : Nat → Except Failure α)
    (n : Nat) (delay : ℚ) (opName : String) (hn : 1 ≤ n) (v : α)
    (hok : op 1 = .ok v) :
    withRetry op n delay opName = ⟨.ok v, [1], []⟩ := by
  obtain ⟨m, rfl⟩ := Nat.exists_eq_add_of_le' hn
  unfold withRetry
  rw [withRetryGo]
  have h1 : m + 1 - m = 1 := by omega
  rw [h1, hok]

theorem withRetry_attempts_length {α : Type} (op : Nat → Except Failure α)
    (n : Nat) (delay : ℚ) (opName : String) :
    (withRetry op n delay opName).attempts.length ≤ n :=
  withRetryGo_attempts_length op n delay opName n none

theorem withRetry_attempts_head {α : Type} (op : Nat → Except Failure α)
    (n : Nat) (delay : ℚ) (opName : String) (hn : 1 ≤ n) :
    ∃ t, (withRetry op n delay opName).attempts = 1 :: t := by
  obtain ⟨m, rfl⟩ := Nat.exists_eq_add_of_le' hn
  unfold withRetry
  rw [withRetryGo]
  have h1 : m + 1 - m = 1 := by omega
  rw [h1]
  cases op 1 with
  | ok v => exact ⟨[], rfl⟩
  | error e => exact ⟨_, rfl⟩

theorem withRetryGo_all_fail_attempts {α : Type} (op : Nat → Except Failure α)
    (retries : Nat) (delay : ℚ) (opName : String)
    (hfail : ∀ i, 1 ≤ i → i ≤ retries → ∃ e, op i = .error e) :
    ∀ (k : Nat) (last : Option Failure), k ≤ retries →
      (withRetryGo op retries delay opName k last).attempts =
        List.range' (retries - k + 1) k := by
  intro k
  induction k with
  | zero => intro last _; rfl
  | succ k ih =>
    intro last hk
    rw [withRetryGo]
    obtain ⟨e, he⟩ := hfail (retries - k) (by omega) (by omega)
    rw [he]
    show (retries - k) :: (withRetryGo op retries delay opName k (some e)).attempts
      = List.range' (retries - (k + 1) + 1) (k + 1)
    rw [ih (some e) (by omega)]
    have h1 : retries - (k + 1) + 1 = retries - k := by omega
    rw [h1, List.range'_succ]

theorem withRetry_all_fail_spec {α : Type} (op : Nat → Except Failure α)
    (n : Nat) (delay : ℚ) (opName : String) (hn : 1 ≤ n)
    (hfail : ∀ i, 1 ≤ i → i ≤ n → ∃ e, op i = .error e)
    (e : Failure) (hlast : op n = .error e) :
    (withRetry op n delay opName).result = .error e ∧
    (withRetry op n delay opName).attempts = List.range' 1 n := by
  constructor
  · exact withRetryGo_all_fail op n delay opName hfail e hlast n none hn (le_refl _)
  · have := withRetryGo_all_fail_attempts op n delay opName hfail n none (le_refl _)
    unfold withRetry
    rw [this]
    congr 1
    omega

theorem countEvents_append (a b : List Event) (name : String) :
    countEvents (a ++ b) name = countEvents a name + countEvents b name := by
  simp [countEvents, List.filter_append]

theorem countEvents_stage (attempts : List Nat) (nm nm' : String) :
    countEvents (attempts.map (fun k => ((nm, k) : Event))) nm' =
      if nm' = nm then attempts.length else 0 := by
  unfold countEvents
  induction attempts with
  | nil => simp
  | cons a t ih =>
    by_cases h : nm' = nm
    · subst h
      simp [List.filter_cons, ih]
    · have : (nm == nm') = false := by
        simp only [beq_eq_false_iff_ne, ne_eq]
        exact fun hh => h hh.symm
      simp only [List.map_cons, List.filter_cons, this]
      rw [if_neg h] at ih
      simpa [h] using ih

theorem stageUpload_trace (env : Env) (p : Params) :
    ∃ rest, (stageUpload env p).2 =
      ((withRetry env.upload 3 5000 "file upload").attempts.map
        (fun k => (("file upload", k) : Event))) ++ rest := by
  simp only [stageUpload]
  split
  · exact ⟨[], by simp⟩
  · split
    · exact ⟨[], by simp⟩
    · exact ⟨(stageSheets env p).2, rfl⟩

/-- C5: the run is rejected, with no retry and before any upload call,
iff the size computed from the `content-length` header (or, absent the
header, the byte count) exceeds 50 MB; at 50 MB or less the upload is
attempted. -/
theorem c5_fifty_mb_gate (env : Env) (p : Params)
    (hapi : p.apiEndpoint ≠ "")
    (hv1 : isValidUrl (stripTrailingSlashes p.apiEndpoint) = true)
    (hv2 : isValidUrl p.fileUrl = true)
    (hr : 1 ≤ p.retryAttempts)
    (fr : FileResponse) (hdl : env.download 1 = .ok fr) :
    (50 < fileSizeMB fr →
      (execute env p).1 = .error (.opErr "File size exceeds 50 MB limit") ∧
      ∀ ev ∈ (execute env p).2, ev.1 = "file download") ∧
    (fileSizeMB fr ≤ 50 → ("file upload", 1) ∈ (execute env p).2) := by
  have hfirst := withRetry_first_ok env.download p.retryAttempts 5000
    "file download" hr fr hdl
  constructor
  · intro hbig
    simp only [execute, if_neg hapi, hv1, hv2, Bool.true_eq_false, if_false,
      hfirst, if_pos hbig]
    simp
  · intro hsmall
    obtain ⟨t, ht⟩ := withRetry_attempts_head env.upload 3 5000 "file upload"
      (by norm_num)
    obtain ⟨rest, hrest⟩ := stageUpload_trace env p
    simp only [execute, if_neg hapi, hv1, hv2, Bool.true_eq_false, if_false,
      hfirst, if_neg (not_lt.mpr hsmall)]
    rw [hrest, ht]
    simp

/-- C5 witness: a download reporting a `content-length` of 50 MB + 1
byte aborts before any upload call; exactly 50 MB proceeds to upload. -/
theorem c5_fifty_mb_gate_witness :
    ((execute
        ⟨fun _ => .ok ⟨some 52428801, 1000⟩, fun _ => .error (.jsErr "down"),
          fun _ => .error (.jsErr "x"), fun _ => .error (.jsErr "x"),
          fun _ => .error (.jsErr "x"), fun _ => .error (.jsErr "x"),
          fun _ => none⟩
        ⟨"http://localhost:3000/api", "http://example.com/f.xlsx", "", "",
          0, 0, 3⟩).1
      = .error (.opErr "File size exceeds 50 MB limit") ∧
      ∀ ev ∈ (execute
        ⟨fun _ => .ok ⟨some 52428801, 1000⟩, fun _ => .error (.jsErr "down"),
          fun _ => .error (.jsErr "x"), fun _ => .error (.jsErr "x"),
          fun _ => .error (.jsErr "x"), fun _ => .error (.jsErr "x"),
          fun _ => none⟩
        ⟨"http://localhost:3000/api", "http://example.com/f.xlsx", "", "",
          0, 0, 3⟩).2, ev.1 = "file download") ∧
    ("file upload", 1) ∈ (execute
        ⟨fun _ => .ok ⟨some 52428800, 1000⟩, fun _ => .error (.jsErr "down"),
          fun _ => .error (.jsErr "x"), fun _ => .error (.jsErr "x"),
          fun _ => .error (.jsErr "x"), fun _ => .error (.jsErr "x"),
          fun _ => none⟩
        ⟨"http://localhost:3000/api", "http://example.com/f.xlsx", "", "",
          0, 0, 3⟩).2 := by
  constructor
  · exact (c5_fifty_mb_gate _ _ (by decide) (by decide) (by decide)
      (by norm_num) ⟨some 52428801, 1000⟩ rfl).1 (by norm_num [fileSizeMB])
  · exact (c5_fifty_mb_gate _ _ (by decide) (by decide) (by decide)
      (by norm_num) ⟨some 52428800, 1000⟩ rfl).2 (by norm_num [fileSizeMB])

/-- C7: when every stage succeeds, an exported array of n records is
emitted as exactly those n records, verbatim and in order, and a single
non-array object is emitted as exactly one item carrying it. -/
theorem c7_emission (env : Env) (p : Params)
    (hapi : p.apiEndpoint ≠ "")
    (hv1 : isValidUrl (stripTrailingSlashes p.apiEndpoint) = true)
    (hv2 : isValidUrl p.fileUrl = true)
    (hr : 1 ≤ p.retryAttempts)
    (fr : FileResponse) (hdl : env.download 1 = .ok fr)
    (hsize : fileSizeMB fr ≤ 50)
    (updata : JVal) (hup : env.upload 1 = .ok updata)
    (docId : JVal) (hdoc : extractDocumentId updata = .ok docId)
    (sheets : List JVal)
    (hsh : (env.sheets 1).bind normalizeSheets = .ok sheets)
    (hsne : ¬ sheets.length = 0)
    (hidx : ¬ (p.sheetIndex < 0 ∨ (sheets.length : Int) ≤ p.sheetIndex))
    (fields : List JVal)
    (hfl : (env.fields 1).bind normalizeFields = .ok fields)
    (hfne : ¬ fields.length = 0)
    (spData : JVal)
    (hsp : (env.setParams 1).bind checkParamsSuccess = .ok spData)
    (payload : JVal)
    (hex : (env.exported 1).bind checkExportedData = .ok payload) :
    (∀ records, payload = .arr records → (execute env p).1 = .ok records) ∧
    (∀ props, payload = .obj props → (execute env p).1 = .ok [payload]) := by
  have h1 := withRetry_first_ok env.download p.retryAttempts 5000
    "file download" hr fr hdl
  have h2 := withRetry_first_ok env.upload 3 5000 "file upload"
    (by norm_num) updata hup
  have h3 := withRetry_first_ok (fun k => (env.sheets k).bind normalizeSheets)
    p.retryAttempts 2000 "get sheets" hr sheets hsh
  have h4 := withRetry_first_ok (fun k => (env.fields k).bind normalizeFields)
    p.retryAttempts 2000 "get fields" hr fields hfl
  have h5 := withRetry_first_ok
    (fun k => (env.setParams k).bind checkParamsSuccess)
    p.retryAttempts 2000 "set parameters" hr spData hsp
  have h6 := withRetry_first_ok
    (fun k => (env.exported k).bind checkExportedData)
    p.retryAttempts 2000 "get exported data" hr payload hex
  constructor
  · intro records hrec
    subst hrec
    simp only [execute, stageUpload, stageSheets, stageFields, stageParams,
      stageExport, if_neg hapi, hv1, hv2, Bool.true_eq_false, if_false,
      h1, if_neg (not_lt.mpr hsize), h2, hdoc, h3, if_neg hsne, if_neg hidx,
      h4, if_neg hfne, h5, h6]
  · intro props hobj
    subst hobj
    simp only [execute, stageUpload, stageSheets, stageFields, stageParams,
      stageExport, if_neg hapi, hv1, hv2, Bool.true_eq_false, if_false,
      h1, if_neg (not_lt.mpr hsize), h2, hdoc, h3, if_neg hsne, if_neg hidx,
      h4, if_neg hfne, h5, h6]

/-- C7 witness: the spec's end-to-end example emits exactly the two
exported records, verbatim. -/
theorem c7_emission_witness :
    (execute exampleEnv exampleParams).1
    = .ok [.obj [("Model", .str "A"), ("Price", .str "100")],
        .obj [("Model", .str "B"), ("Price", .str "200")]] :=
  (c7_emission exampleEnv exampleParams (by decide) (by decide) (by decide)
    (by decide)
    ⟨some 1000, 1000⟩ rfl (by norm_num [fileSizeMB])
    (.obj [("id", .str "67cc205cf48b6439a379ea35")]) rfl
    (.str "67cc205cf48b6439a379ea35") rfl
    [.str "Sheet1"] rfl (by decide) (by decide)
    [.str "Model", .str "Price", .str "Description"] rfl (by decide)
    (.obj [("success", .boolean true)]) rfl
    (.arr [.obj [("Model", .str "A"), ("Price", .str "100")],
      .obj [("Model", .str "B"), ("Price", .str "200")]]) rfl).1
    [.obj [("Model", .str "A"), ("Price", .str "100")],
      .obj [("Model", .str "B"), ("Price", .str "200")]] rfl

theorem countEvents_nil (name : String) : countEvents [] name = 0 := rfl

theorem stageExport_count (env : Env) (p : Params) (nm : String) :
    countEvents (stageExport env p).2 nm =
      countEvents ((withRetry (fun k => (env.exported k).bind checkExportedData)
        p.retryAttempts 2000 "get exported data").attempts.map
          (fun k => (("get exported data", k) : Event))) nm := by
  simp only [stageExport]
  repeat' split
  all_goals rfl

theorem stageParams_count (env : Env) (p : Params) (fields : List JVal)
    (nm : String) :
    countEvents (stageParams env p fields).2 nm ≤
      countEvents ((withRetry (fun k => (env.setParams k).bind checkParamsSuccess)
        p.retryAttempts 2000 "set parameters").attempts.map
          (fun k => (("set parameters", k) : Event))) nm +
      countEvents (stageExport env p).2 nm := by
  simp only [stageParams]
  split
  · dsimp only
    omega
  · dsimp only
    rw [countEvents_append]

theorem stageFields_count (env : Env) (p : Params) (nm : String) :
    countEvents (stageFields env p).2 nm ≤
      countEvents ((withRetry (fun k => (env.fields k).bind normalizeFields)
        p.retryAttempts 2000 "get fields").attempts.map
          (fun k => (("get fields", k) : Event))) nm +
      (countEvents ((withRetry (fun k => (env.setParams k).bind checkParamsSuccess)
        p.retryAttempts 2000 "set parameters").attempts.map
          (fun k => (("set parameters", k) : Event))) nm +
       countEvents (stageExport env p).2 nm) := by
  simp only [stageFields]
  split
  · dsimp only
    omega
  · split
    · dsimp only
      omega
    · rename_i fields _ _
      dsimp only
      rw [countEvents_append]
      have := stageParams_count env p fields nm
      omega

theorem stageSheets_count (env : Env) (p : Params) (nm : String) :
    countEvents (stageSheets env p).2 nm ≤
      countEvents ((withRetry (fun k => (env.sheets k).bind normalizeSheets)
        p.retryAttempts 2000 "get sheets").attempts.map
          (fun k => (("get sheets", k) : Event))) nm +
      (countEvents ((withRetry (fun k => (env.fields k).bind normalizeFields)
        p.retryAttempts 2000 "get fields").attempts.map
          (fun k => (("get fields", k) : Event))) nm +
       (countEvents ((withRetry (fun k => (env.setParams k).bind checkParamsSuccess)
        p.retryAttempts 2000 "set parameters").attempts.map
          (fun k => (("set parameters", k) : Event))) nm +
        countEvents (stageExport env p).2 nm)) := by
  simp only [stageSheets]
  split
  · dsimp only
    omega
  · split
    · dsimp only
      omega
    · split
      · dsimp only
        omega
      · dsimp only
        rw [countEvents_append]
        have := stageFields_count env p nm
        omega

theorem stageUpload_count (env : Env) (p : Params) (nm : String) :
    countEvents (stageUpload env p).2 nm ≤
      countEvents ((withRetry env.upload 3 5000 "file upload").attempts.map
          (fun k => (("file upload", k) : Event))) nm +
      (countEvents ((withRetry (fun k => (env.sheets k).bind normalizeSheets)
        p.retryAttempts 2000 "get sheets").attempts.map
          (fun k => (("get sheets", k) : Event))) nm +
       (countEvents ((withRetry (fun k => (env.fields k).bind normalizeFields)
        p.retryAttempts 2000 "get fields").attempts.map
          (fun k => (("get fields", k) : Event))) nm +
        (countEvents ((withRetry (fun k => (env.setParams k).bind checkParamsSuccess)
        p.retryAttempts 2000 "set parameters").attempts.map
          (fun k => (("set parameters", k) : Event))) nm +
         countEvents (stageExport env p).2 nm))) := by
  simp only [stageUpload]
  split
  · dsimp only
    omega
  · split
    · dsimp only
      omega
    · dsimp only
      rw [countEvents_append]
      have := stageSheets_count env p nm
      omega

theorem execute_count (env : Env) (p : Params) (nm : String) :
    countEvents (execute env p).2 nm ≤
      countEvents ((withRetry env.download p.retryAttempts 5000
        "file download").attempts.map
          (fun k => (("file download", k) : Event))) nm +
      (countEvents ((withRetry env.upload 3 5000 "file upload").attempts.map
          (fun k => (("file upload", k) : Event))) nm +
       (countEvents ((withRetry (fun k => (env.sheets k).bind normalizeSheets)
        p.retryAttempts 2000 "get sheets").attempts.map
          (fun k => (("get sheets", k) : Event))) nm +
        (countEvents ((withRetry (fun k => (env.fields k).bind normalizeFields)
        p.retryAttempts 2000 "get fields").attempts.map
          (fun k => (("get fields", k) : Event))) nm +
         (countEvents ((withRetry (fun k => (env.setParams k).bind checkParamsSuccess)
        p.retryAttempts 2000 "set parameters").attempts.map
          (fun k => (("set parameters", k) : Event))) nm +
          countEvents (stageExport env p).2 nm)))) := by
  simp only [execute]
  split
  · dsimp only
    simp only [countEvents_nil]
    omega
  · split
    · dsimp only
      simp only [countEvents_nil]
      omega
    · split
      · dsimp only
        simp only [countEvents_nil]
        omega
      · split
        · dsimp only
          omega
        · split
          · dsimp only
            omega
          · dsimp only
            rw [countEvents_append]
            have := stageUpload_count env p nm
            omega

/-- C2 (amended): each remote operation runs through its own retry
wrapper — download, list-sheets, list-fields, set-parameters and
fetch-export each up to the configured `retryAttempts`, while the upload
runs up to a fixed built-in count of 3, regardless of `retryAttempts`. -/
theorem c2_retry_counts (env : Env) (p : Params) :
    countEvents (execute env p).2 "file download" ≤ p.retryAttempts ∧
    countEvents (execute env p).2 "file upload" ≤ 3 ∧
    countEvents (execute env p).2 "get sheets" ≤ p.retryAttempts ∧
    countEvents (execute env p).2 "get fields" ≤ p.retryAttempts ∧
    countEvents (execute env p).2 "set parameters" ≤ p.retryAttempts ∧
    countEvents (execute env p).2 "get exported data" ≤ p.retryAttempts := by
  have hdl := withRetry_attempts_length env.download p.retryAttempts 5000
    "file download"
  have hup := withRetry_attempts_length env.upload 3 5000 "file upload"
  have hsh := withRetry_attempts_length
    (fun k => (env.sheets k).bind normalizeSheets) p.retryAttempts 2000
    "get sheets"
  have hfl := withRetry_attempts_length
    (fun k => (env.fields k).bind normalizeFields) p.retryAttempts 2000
    "get fields"
  have hsp := withRetry_attempts_length
    (fun k => (env.setParams k).bind checkParamsSuccess) p.retryAttempts 2000
    "set parameters"
  have hex := withRetry_attempts_length
    (fun k => (env.exported k).bind checkExportedData) p.retryAttempts 2000
    "get exported data"
  refine ⟨?_, ?_, ?_, ?_, ?_, ?_⟩
  · have hb := execute_count env p "file download"
    rw [stageExport_count] at hb
    simp +decide [countEvents_stage] at hb
    omega
  · have hb := execute_count env p "file upload"
    rw [stageExport_count] at hb
    simp +decide [countEvents_stage] at hb
    omega
  · have hb := execute_count env p "get sheets"
    rw [stageExport_count] at hb
    simp +decide [countEvents_stage] at hb
    omega
  · have hb := execute_count env p "get fields"
    rw [stageExport_count] at hb
    simp +decide [countEvents_stage] at hb
    omega
  · have hb := execute_count env p "set parameters"
    rw [stageExport_count] at hb
    simp +decide [countEvents_stage] at hb
    omega
  · have hb := execute_count env p "get exported data"
    rw [stageExport_count] at hb
    simp +decide [countEvents_stage] at hb
    omega

/-- C2 counterexample: with `retryAttempts` configured to 5 and an upload
that always fails, the upload is attempted exactly 3 times (the count
hard-coded at lines 216-217), not the configured 5, before the failure
surfaces. -/
theorem c2_retry_counterexample :
    fiveRetryParams.retryAttempts = 5 ∧
    countEvents (execute uploadFailEnv fiveRetryParams).2 "file upload" = 3 ∧
    (execute uploadFailEnv fiveRetryParams).1 =
      .error (.httpErr 500 "Internal Server Error" "upload failed") := by
  have hsize : ¬ (50 < fileSizeMB ⟨some 1000, 1000⟩) := by
    norm_num [fileSizeMB]
  have hfirst := withRetry_first_ok
    (fun _ => (Except.ok ⟨some 1000, 1000⟩ : Except Failure FileResponse))
    5 5000 "file download" (by norm_num) ⟨some 1000, 1000⟩ rfl
  have hall := withRetry_all_fail_spec
    (fun _ => (Except.error (Failure.httpErr 500 "Internal Server Error"
      "upload failed") : Except Failure JVal)) 3 5000 "file upload"
    (by norm_num)
    (fun i _ _ => ⟨Failure.httpErr 500 "Internal Server Error" "upload failed", rfl⟩)
    (Failure.httpErr 500 "Internal Server Error" "upload failed") rfl
  refine ⟨rfl, ?_, ?_⟩ <;>
    simp +decide only [execute, stageUpload, fiveRetryParams, uploadFailEnv,
      hfirst, hall.1, hall.2, hsize, if_true, if_false]

end XlsxToJson

